import Mathlib

/-!
Verification of the bounded multi-round tool-augmented response orchestrator
in `backend/ai_generator.py` (class `AIGenerator`).

Shallow embedding. The Anthropic client object is replaced by a pure
function `ClientFun : Nat → Except String ModelResponse` giving the result
of the n-th `messages.create` call of one orchestration (an `Except.error e`
models the client raising an exception whose string representation is `e`;
the response sequence is otherwise arbitrary, which quantifies over every
possible sequence of model responses).  A `Trace` records, in order, the
parameter record of every `messages.create` call actually issued and every
`tool_manager.execute_tool` invocation actually performed, so that claims
about call counts, call parameters and tool executions are statable.
Tool managers are modelled as functions returning `Except String String`:
`Except.error e` models `execute_tool` raising an exception with `str(e) = e`.
Python truthiness of the optional `tools` list (`if tools:`) is `listTruthy`:
`None` and `[]` are both falsy.
-/

/-- One content block of a model response.  Python accesses `.type`, `.text`,
`.name`, `.input` and `.id` on these duck-typed objects; the embedding gives
every block all five fields.  Tool parameters (`**content_block.input` in
Python, an arbitrary keyword mapping) are modelled as an association list. -/
structure ContentBlock where
  type : String
  text : String
  name : String
  input : List (String × String)
  id : String
deriving DecidableEq, Repr

/-- A model response as consumed by `ai_generator.py`: `stop_reason` and the
list of content blocks. -/
structure ModelResponse where
  stop_reason : String
  content : List ContentBlock
deriving DecidableEq, Repr

/-- A tool schema is passed through `ai_generator.py` untouched; it is opaque
to the orchestrator, so a string suffices. -/
abbrev ToolSchema := String

/-- One record of the tool-result list built in `_process_tool_round`
(lines 181-187): the dict with keys `type`, `tool_use_id`, `content`. -/
structure ToolResultRecord where
  type : String
  tool_use_id : String
  content : String
deriving DecidableEq, Repr

/-- Content of one message of the transcript: a plain user string, the model
response's content blocks (assistant turn), or a tool-result list. -/
inductive MsgContent where
  | text : String → MsgContent
  | blocks : List ContentBlock → MsgContent
  | results : List ToolResultRecord → MsgContent
deriving DecidableEq, Repr

/-- One message of the `messages` list sent to the client. -/
structure Message where
  role : String
  content : MsgContent
deriving DecidableEq, Repr

/-- The keyword arguments of one `messages.create` call.  `tools = none`
and `tool_choice = none` model the corresponding keys being absent from the
call; `tool_choice = some "auto"` models `{"type": "auto"}`. -/
structure ApiParams where
  model : String
  temperature : Int
  max_tokens : Nat
  messages : List Message
  system : String
  tools : Option (List ToolSchema)
  tool_choice : Option String
deriving DecidableEq, Repr

/-- The tool manager: `execute_tool(name, **params)`; `Except.error e`
models the call raising an exception whose `str` is `e`. -/
structure ToolManager where
  execute_tool : String → List (String × String) → Except String String

/-- The model client: result of the n-th `messages.create` call of one
orchestration run.  `Except.error e` models the call raising. -/
abbrev ClientFun := Nat → Except String ModelResponse

/-- Observation log of one orchestration run: the parameter records of the
`messages.create` calls issued, in order, and the `execute_tool` invocations
performed (tool name and parameters), in order. -/
structure Trace where
  calls : List ApiParams
  toolCalls : List (String × List (String × String))
deriving DecidableEq, Repr

/-- How one orchestration run can fail: an exception from a
`messages.create` call propagating out (line 96, 222, 242), or the
`IndexError` of `response.content[0]` on an empty content list. -/
inductive RunError where
  | client : String → RunError
  | emptyContent : RunError
deriving DecidableEq, Repr

/-- `AIGenerator.SYSTEM_PROMPT` (lines 10-47), verbatim. -/
def SYSTEM_PROMPT : String :=
  "You are an AI assistant specialized in course materials \n"
    ++ "and educational content with access to two comprehensive tools for course \n"
    ++ "information.\n"
    ++ "\n"
    ++ "Available Tools:\n"
    ++ "1. **search_course_content**: For searching specific course content and \n"
    ++ "   detailed materials\n"
    ++ "2. **get_course_syllabus**: For getting course syllabus (title, instructor, \n"
    ++ "   link, complete lesson list)\n"
    ++ "\n"
    ++ "Tool Usage Guidelines:\n"
    ++ "- **Course syllabus/overview questions**: Use get_course_syllabus tool to \n"
    ++ "  show course title, instructor, course link, and complete lesson list with \n"
    ++ "  numbers and titles\n"
    ++ "- **Course content questions**: Use search_course_content tool for specific \n"
    ++ "  lesson content or detailed materials\n"
    ++ "- **최대 2라운드의 순차적 도구 호출 지원**: 첫 번째 도구 결과를 바탕으로 \n"
    ++ "  추가 도구 호출 가능\n"
    ++ "- 복잡한 쿼리의 경우 단계별 도구 사용 권장 (예: 검색 → 강의계획서 조회)\n"
    ++ "- Synthesize tool results into accurate, fact-based responses\n"
    ++ "- If tool yields no results, state this clearly without offering alternatives\n"
    ++ "\n"
    ++ "Response Protocol:\n"
    ++ "- **General knowledge questions**: Answer using existing knowledge without using tools\n"
    ++ "- **Course syllabus questions** (강의 계획서, 강의 목록, 전체 강의): Use get_course_syllabus tool\n"
    ++ "- **Course content questions**: Use search_course_content tool first, then answer\n"
    ++ "- **No meta-commentary**:\n"
    ++ " - Provide direct answers only — no reasoning process, tool explanations, or question-type analysis\n"
    ++ " - Do not mention \"based on the search results\" or tool usage\n"
    ++ "\n"
    ++ "\n"
    ++ "All responses must be:\n"
    ++ "1. **Brief, Concise and focused** - Get to the point quickly\n"
    ++ "2. **Educational** - Maintain instructional value\n"
    ++ "3. **Clear** - Use accessible language\n"
    ++ "4. **Example-supported** - Include relevant examples when they aid understanding\n"
    ++ "Provide only the direct answer to what was asked.\n"

/-- The generator's configuration (`self.model`; the api key plays no role
in the control flow).  `self.base_params` is
`{"model": self.model, "temperature": 0, "max_tokens": 800}` (line 54). -/
structure AIGenerator where
  model : String

/-- Python truthiness of the `Optional[List]` argument `tools`
(`if tools:`, lines 91 and 217): `None` and the empty list are falsy. -/
def listTruthy {α : Type} : Option (List α) → Bool
  | none => false
  | some l => !l.isEmpty

/-- System content composed at lines 77-81: the prompt, with the separator
and the history appended when and only when `conversation_history` is truthy
(non-`None` and non-empty). -/
def build_system_content (conversation_history : Option String) : String :=
  match conversation_history with
  | some h =>
      if h = "" then SYSTEM_PROMPT
      else SYSTEM_PROMPT ++ "\n\nPrevious conversation:\n" ++ h
  | none => SYSTEM_PROMPT

/-- Issue one `messages.create` call: the response is the next element of
the client stream, and the parameter record is appended to the call log. -/
def callModel (client : ClientFun) (p : ApiParams) (tr : Trace) :
    Except String ModelResponse × Trace :=
  (client tr.calls.length, ⟨tr.calls ++ [p], tr.toolCalls⟩)

/-- Parameter record built by `generate_response` (lines 84-93) and
identically by `_execute_round_with_tools` (lines 210-219): base params,
messages, system, plus `tools` and `tool_choice = {"type": "auto"}` exactly
when `tools` is truthy. -/
def round_params (g : AIGenerator) (messages : List Message) (system : String)
    (tools : Option (List ToolSchema)) : ApiParams :=
  if listTruthy tools then
    { model := g.model, temperature := 0, max_tokens := 800,
      messages := messages, system := system,
      tools := tools, tool_choice := some "auto" }
  else
    { model := g.model, temperature := 0, max_tokens := 800,
      messages := messages, system := system,
      tools := none, tool_choice := none }

/-- Parameter record built by `_execute_final_round` (lines 236-240) and by
the legacy `_handle_tool_execution` (lines 290-294): base params, messages,
system — never any `tools` or `tool_choice` key. -/
def final_params (g : AIGenerator) (messages : List Message) (system : String) :
    ApiParams :=
  { model := g.model, temperature := 0, max_tokens := 800,
    messages := messages, system := system,
    tools := none, tool_choice := none }

/-- The tool-use blocks of a response, in response order (the blocks the
loop at lines 172-187 acts on). -/
def tool_use_blocks (response : ModelResponse) : List ContentBlock :=
  response.content.filter (fun b => b.type == "tool_use")

/-- The `try`/`except` around one `execute_tool` call (lines 174-179):
a raised exception is caught and its string representation is the result. -/
def runToolCall (tm : ToolManager) (nm : String) (inp : List (String × String)) :
    String :=
  match tm.execute_tool nm inp with
  | Except.ok t => t
  | Except.error e => e

/-- The `tool_results` list built by `_process_tool_round` (lines 171-187):
one record per tool-use block, in block order. -/
def tool_results_of (tm : ToolManager) (response : ModelResponse) :
    List ToolResultRecord :=
  (tool_use_blocks response).map
    (fun b => ⟨"tool_result", b.id, runToolCall tm b.name b.input⟩)

/-- `_process_tool_round` (lines 155-193), message effect: append the
assistant turn carrying `response.content`; then, only when at least one
tool result was collected, append one user turn carrying all results. -/
def process_tool_round (tm : ToolManager) (response : ModelResponse)
    (messages : List Message) : List Message :=
  let base := messages ++ [⟨"assistant", MsgContent.blocks response.content⟩]
  let rs := tool_results_of tm response
  if rs.isEmpty then base
  else base ++ [⟨"user", MsgContent.results rs⟩]

/-- `_process_tool_round`, observation effect: log one `execute_tool`
invocation (name, parameters) per tool-use block, in block order. -/
def record_tool_calls (response : ModelResponse) (tr : Trace) : Trace :=
  ⟨tr.calls, tr.toolCalls ++ (tool_use_blocks response).map (fun b => (b.name, b.input))⟩

/-- `_execute_round_with_tools` (lines 195-222): rebuild params from the
base params with the current messages, the original system string and the
tools (when truthy), and call the client. -/
def execute_round_with_tools (g : AIGenerator) (client : ClientFun)
    (messages : List Message) (system : String)
    (tools : Option (List ToolSchema)) (tr : Trace) :
    Except String ModelResponse × Trace :=
  callModel client (round_params g messages system tools) tr

/-- `_execute_final_round` (lines 224-243): one client call with no tools,
returning `final_response.content[0].text`. -/
def execute_final_round (g : AIGenerator) (client : ClientFun)
    (messages : List Message) (system : String) (tr : Trace) :
    Except RunError String × Trace :=
  let out := callModel client (final_params g messages system) tr
  match out.1 with
  | Except.error e => (Except.error (RunError.client e), out.2)
  | Except.ok r =>
      match r.content.head? with
      | none => (Except.error RunError.emptyContent, out.2)
      | some b => (Except.ok b.text, out.2)

/-- The `for round_num in range(1, max_rounds + 1)` loop of
`_handle_tool_execution_with_rounds` (lines 133-153), as structural
recursion on the remaining fuel `max_rounds - round_num + 1`: at fuel
`n + 1` the body runs with `round_num = max_rounds - n`, so `n = 0` is the
`round_num == max_rounds` test of line 140; fuel `0` is the fall-through
final round of line 153 (reachable only when `max_rounds = 0`, since the
last loop iteration always returns). -/
def rounds_loop (g : AIGenerator) (client : ClientFun) (tm : ToolManager)
    (tools : Option (List ToolSchema)) (system : String) :
    Nat → ModelResponse → List Message → Trace → Except RunError String × Trace
  | 0, _, messages, tr => execute_final_round g client messages system tr
  | n + 1, current, messages, tr =>
      let messages2 := process_tool_round tm current messages
      let tr2 := record_tool_calls current tr
      if n = 0 then
        execute_final_round g client messages2 system tr2
      else
        let out := execute_round_with_tools g client messages2 system tools tr2
        match out.1 with
        | Except.error e => (Except.error (RunError.client e), out.2)
        | Except.ok r =>
            if r.stop_reason = "tool_use" then
              rounds_loop g client tm tools system n r messages2 out.2
            else
              match r.content.head? with
              | none => (Except.error RunError.emptyContent, out.2)
              | some b => (Except.ok b.text, out.2)

/-- `_handle_tool_execution_with_rounds` (lines 107-153): copy the base
messages and run the round loop. -/
def handle_tool_execution_with_rounds (g : AIGenerator) (client : ClientFun)
    (initial_response : ModelResponse) (base_messages : List Message)
    (system : String) (tm : ToolManager) (tools : Option (List ToolSchema))
    (max_rounds : Nat) (tr : Trace) : Except RunError String × Trace :=
  rounds_loop g client tm tools system max_rounds initial_response base_messages tr

/-- `generate_response` (lines 56-105), with the handler's `max_rounds`
parameter (default 2 in the source) exposed: compose the system content,
build the initial params over the single user message, call the client;
on `stop_reason == "tool_use"` with a truthy `tool_manager`, hand off to
the round handler; otherwise return `response.content[0].text`. -/
def generate_response_rounds (g : AIGenerator) (client : ClientFun)
    (query : String) (conversation_history : Option String)
    (tools : Option (List ToolSchema)) (tool_manager : Option ToolManager)
    (max_rounds : Nat) : Except RunError String × Trace :=
  let system_content := build_system_content conversation_history
  let messages : List Message := [⟨"user", MsgContent.text query⟩]
  let api_params := round_params g messages system_content tools
  let out := callModel client api_params ⟨[], []⟩
  match out.1 with
  | Except.error e => (Except.error (RunError.client e), out.2)
  | Except.ok response =>
      match tool_manager with
      | some tm =>
          if response.stop_reason = "tool_use" then
            handle_tool_execution_with_rounds g client response messages
              system_content tm tools max_rounds out.2
          else
            match response.content.head? with
            | none => (Except.error RunError.emptyContent, out.2)
            | some b => (Except.ok b.text, out.2)
      | none =>
          match response.content.head? with
          | none => (Except.error RunError.emptyContent, out.2)
          | some b => (Except.ok b.text, out.2)

/-- `generate_response` as called by the application: `max_rounds = 2`,
the source's default (line 113). -/
def generate_response (g : AIGenerator) (client : ClientFun) (query : String)
    (conversation_history : Option String) (tools : Option (List ToolSchema))
    (tool_manager : Option ToolManager) : Except RunError String × Trace :=
  generate_response_rounds g client query conversation_history tools tool_manager 2

/-! ### Basic unfolding lemmas -/

theorem callModel_fst (client : ClientFun) (p : ApiParams) (tr : Trace) :
    (callModel client p tr).1 = client tr.calls.length := rfl

theorem callModel_snd (client : ClientFun) (p : ApiParams) (tr : Trace) :
    (callModel client p tr).2 = ⟨tr.calls ++ [p], tr.toolCalls⟩ := rfl

theorem record_tool_calls_calls (r : ModelResponse) (tr : Trace) :
    (record_tool_calls r tr).calls = tr.calls := rfl

theorem final_params_tools (g : AIGenerator) (ms : List Message) (s : String) :
    (final_params g ms s).tools = none := rfl

theorem final_params_tool_choice (g : AIGenerator) (ms : List Message) (s : String) :
    (final_params g ms s).tool_choice = none := rfl

/-- C6 (also the direct-return arm shared by several claims): when the first
response's stop reason is not `tool_use`, `generate_response` returns that
response's first text after exactly one client call and no tool execution,
for every `tool_manager`. -/
theorem direct_return_one_call (g : AIGenerator) (client : ClientFun)
    (query : String) (hist : Option String) (tools : Option (List ToolSchema))
    (tm : Option ToolManager) (resp : ModelResponse) (b : ContentBlock)
    (bs : List ContentBlock)
    (h0 : client 0 = Except.ok resp)
    (hstop : resp.stop_reason ≠ "tool_use")
    (hcont : resp.content = b :: bs) :
    generate_response g client query hist tools tm
      = (Except.ok b.text,
         ⟨[round_params g [⟨"user", MsgContent.text query⟩]
             (build_system_content hist) tools], []⟩) := by
  cases tm with
  | none =>
      simp [generate_response, generate_response_rounds, callModel, h0, hcont]
  | some t =>
      simp [generate_response, generate_response_rounds, callModel,
        handle_tool_execution_with_rounds, h0, hstop, hcont]

/-- Witness for `direct_return_one_call` at a concrete input. -/
theorem direct_return_one_call_witness :
    generate_response ⟨"m"⟩ (fun _ => Except.ok ⟨"end_turn", [⟨"text", "hello", "", [], ""⟩]⟩)
        "q" none none none
      = (Except.ok "hello",
         ⟨[round_params ⟨"m"⟩ [⟨"user", MsgContent.text "q"⟩]
             (build_system_content none) none], []⟩) :=
  direct_return_one_call ⟨"m"⟩ _ "q" none none none
    ⟨"end_turn", [⟨"text", "hello", "", [], ""⟩]⟩ ⟨"text", "hello", "", [], ""⟩ []
    rfl (by decide) rfl

/-- C9: a `tool_use` first response with `tool_manager = None` is returned
directly — the guard at line 99 requires a truthy `tool_manager`, so the
code executes no tool, makes no further client call, and returns the
`.text` of the first content block of the tool-requesting response. -/
theorem tool_use_without_manager_direct (g : AIGenerator) (client : ClientFun)
    (query : String) (hist : Option String) (tools : Option (List ToolSchema))
    (resp : ModelResponse) (b : ContentBlock) (bs : List ContentBlock)
    (h0 : client 0 = Except.ok resp)
    (_hstop : resp.stop_reason = "tool_use")
    (hcont : resp.content = b :: bs) :
    generate_response g client query hist tools none
      = (Except.ok b.text,
         ⟨[round_params g [⟨"user", MsgContent.text query⟩]
             (build_system_content hist) tools], []⟩) := by
  simp [generate_response, generate_response_rounds, callModel, h0, hcont]

/-- Witness for `tool_use_without_manager_direct` at a concrete input. -/
theorem tool_use_without_manager_direct_witness :
    generate_response ⟨"m"⟩
        (fun _ => Except.ok ⟨"tool_use", [⟨"tool_use", "t", "tool1", [("q", "x")], "id1"⟩]⟩)
        "q" none (some ["s1"]) none
      = (Except.ok "t",
         ⟨[round_params ⟨"m"⟩ [⟨"user", MsgContent.text "q"⟩]
             (build_system_content none) (some ["s1"])], []⟩) :=
  tool_use_without_manager_direct ⟨"m"⟩ _ "q" none (some ["s1"])
    ⟨"tool_use", [⟨"tool_use", "t", "tool1", [("q", "x")], "id1"⟩]⟩
    ⟨"tool_use", "t", "tool1", [("q", "x")], "id1"⟩ [] rfl rfl rfl

/-- C2: at the loop state where the round index has reached `max_rounds`
(remaining fuel 1, i.e. `round_num == max_rounds` at line 140) with the
model still requesting tools, exactly one further client call is issued,
its parameters contain no `tools` and no `tool_choice` key, and the text of
that response's first block is returned unconditionally — whatever its
`stop_reason`, so no third tool round can occur. -/
theorem final_round_forced_tool_free (g : AIGenerator) (client : ClientFun)
    (tm : ToolManager) (tools : Option (List ToolSchema)) (system : String)
    (cur : ModelResponse) (msgs : List Message) (tr : Trace)
    (resp : ModelResponse) (b : ContentBlock) (bs : List ContentBlock)
    (hc : client tr.calls.length = Except.ok resp)
    (hcont : resp.content = b :: bs) :
    rounds_loop g client tm tools system 1 cur msgs tr
      = (Except.ok b.text,
         ⟨tr.calls ++ [final_params g (process_tool_round tm cur msgs) system],
          (record_tool_calls cur tr).toolCalls⟩) ∧
    (final_params g (process_tool_round tm cur msgs) system).tools = none ∧
    (final_params g (process_tool_round tm cur msgs) system).tool_choice = none := by
  refine ⟨?_, rfl, rfl⟩
  simp [rounds_loop, execute_final_round, callModel, record_tool_calls, hc, hcont]

/-- Witness for `final_round_forced_tool_free`: the forced final response
itself still claims `tool_use`, yet its text is returned. -/
theorem final_round_forced_tool_free_witness :
    rounds_loop ⟨"m"⟩
        (fun _ => Except.ok ⟨"tool_use", [⟨"tool_use", "t2", "tool1", [], "id2"⟩]⟩)
        ⟨fun _ _ => Except.ok "res"⟩ (some ["s1"]) "sys" 1
        ⟨"tool_use", [⟨"tool_use", "t1", "tool1", [], "id1"⟩]⟩
        [⟨"user", MsgContent.text "q"⟩] ⟨[], []⟩
      = (Except.ok "t2",
         ⟨[final_params ⟨"m"⟩
             (process_tool_round ⟨fun _ _ => Except.ok "res"⟩
               ⟨"tool_use", [⟨"tool_use", "t1", "tool1", [], "id1"⟩]⟩
               [⟨"user", MsgContent.text "q"⟩]) "sys"],
          (record_tool_calls ⟨"tool_use", [⟨"tool_use", "t1", "tool1", [], "id1"⟩]⟩
            ⟨[], []⟩).toolCalls⟩) :=
  (final_round_forced_tool_free ⟨"m"⟩ _ ⟨fun _ _ => Except.ok "res"⟩ (some ["s1"]) "sys"
    ⟨"tool_use", [⟨"tool_use", "t1", "tool1", [], "id1"⟩]⟩
    [⟨"user", MsgContent.text "q"⟩] ⟨[], []⟩
    ⟨"tool_use", [⟨"tool_use", "t2", "tool1", [], "id2"⟩]⟩
    ⟨"tool_use", "t2", "tool1", [], "id2"⟩ [] rfl rfl).1

/-- C3: in one tool round with `k` tool-use blocks, when `k = 0` only the
assistant turn is appended (no tool-result turn at all), and when `k > 0`
exactly one user turn is appended after the assistant turn, holding exactly
`k` result records, in request order, each carrying the `id` of its
originating request as `tool_use_id`. -/
theorem tool_round_results_shape (tm : ToolManager) (resp : ModelResponse)
    (msgs : List Message) :
    (tool_use_blocks resp = [] →
       process_tool_round tm resp msgs
         = msgs ++ [⟨"assistant", MsgContent.blocks resp.content⟩]) ∧
    (tool_use_blocks resp ≠ [] →
       ∃ rs : List ToolResultRecord,
         process_tool_round tm resp msgs
           = msgs ++ [⟨"assistant", MsgContent.blocks resp.content⟩,
                      ⟨"user", MsgContent.results rs⟩] ∧
         rs.length = (tool_use_blocks resp).length ∧
         rs.map (fun r => r.tool_use_id) = (tool_use_blocks resp).map (fun b => b.id)) := by
  constructor
  · intro h
    simp [process_tool_round, tool_results_of, h]
  · intro h
    refine ⟨tool_results_of tm resp, ?_, ?_, ?_⟩
    · simp [process_tool_round, tool_results_of, h]
    · simp [tool_results_of]
    · simp [tool_results_of]

/-- Witness for `tool_round_results_shape`, discharging both implications
at concrete inputs (a response with two tool requests, and one with none). -/
theorem tool_round_results_shape_witness :
    (∃ rs : List ToolResultRecord,
       process_tool_round ⟨fun _ _ => Except.ok "res"⟩
           ⟨"tool_use", [⟨"tool_use", "t", "tool1", [], "id1"⟩,
                         ⟨"tool_use", "t", "tool2", [], "id2"⟩]⟩
           [⟨"user", MsgContent.text "q"⟩]
         = [⟨"user", MsgContent.text "q"⟩] ++
           [⟨"assistant", MsgContent.blocks
               [⟨"tool_use", "t", "tool1", [], "id1"⟩,
                ⟨"tool_use", "t", "tool2", [], "id2"⟩]⟩,
            ⟨"user", MsgContent.results rs⟩] ∧
       rs.length = (tool_use_blocks
           ⟨"tool_use", [⟨"tool_use", "t", "tool1", [], "id1"⟩,
                         ⟨"tool_use", "t", "tool2", [], "id2"⟩]⟩).length ∧
       rs.map (fun r => r.tool_use_id)
         = (tool_use_blocks
             ⟨"tool_use", [⟨"tool_use", "t", "tool1", [], "id1"⟩,
                           ⟨"tool_use", "t", "tool2", [], "id2"⟩]⟩).map (fun b => b.id)) ∧
    process_tool_round ⟨fun _ _ => Except.ok "res"⟩
        ⟨"end_turn", [⟨"text", "hello", "", [], ""⟩]⟩
        [⟨"user", MsgContent.text "q"⟩]
      = [⟨"user", MsgContent.text "q"⟩] ++
        [⟨"assistant", MsgContent.blocks [⟨"text", "hello", "", [], ""⟩]⟩] := by
  constructor
  · exact (tool_round_results_shape ⟨fun _ _ => Except.ok "res"⟩
      ⟨"tool_use", [⟨"tool_use", "t", "tool1", [], "id1"⟩,
                    ⟨"tool_use", "t", "tool2", [], "id2"⟩]⟩
      [⟨"user", MsgContent.text "q"⟩]).2 (by decide)
  · exact (tool_round_results_shape ⟨fun _ _ => Except.ok "res"⟩
      ⟨"end_turn", [⟨"text", "hello", "", [], ""⟩]⟩
      [⟨"user", MsgContent.text "q"⟩]).1 (by decide)

/-! ### Trace shape of the two call helpers -/

theorem execute_round_with_tools_fst (g : AIGenerator) (client : ClientFun)
    (msgs : List Message) (system : String) (tools : Option (List ToolSchema))
    (tr : Trace) :
    (execute_round_with_tools g client msgs system tools tr).1
      = client tr.calls.length := rfl

theorem execute_round_with_tools_snd (g : AIGenerator) (client : ClientFun)
    (msgs : List Message) (system : String) (tools : Option (List ToolSchema))
    (tr : Trace) :
    (execute_round_with_tools g client msgs system tools tr).2
      = ⟨tr.calls ++ [round_params g msgs system tools], tr.toolCalls⟩ := rfl

theorem execute_final_round_snd (g : AIGenerator) (client : ClientFun)
    (msgs : List Message) (system : String) (tr : Trace) :
    (execute_final_round g client msgs system tr).2
      = ⟨tr.calls ++ [final_params g msgs system], tr.toolCalls⟩ := by
  simp only [execute_final_round, callModel]
  split
  · rfl
  · split
    · rfl
    · rfl

theorem listTruthy_some {α : Type} {o : Option (List α)}
    (h : listTruthy o = true) : ∃ l, o = some l ∧ l ≠ [] := by
  cases o with
  | none => simp [listTruthy] at h
  | some l =>
      refine ⟨l, rfl, ?_⟩
      simpa [listTruthy, List.isEmpty_iff] using h

theorem round_params_tools_truthy (g : AIGenerator) (msgs : List Message)
    (system : String) (tools : Option (List ToolSchema))
    (h : listTruthy tools = true) :
    (round_params g msgs system tools).tools = tools ∧
    (round_params g msgs system tools).tool_choice = some "auto" := by
  simp [round_params, h]

theorem round_params_tools_falsy (g : AIGenerator) (msgs : List Message)
    (system : String) (tools : Option (List ToolSchema))
    (h : listTruthy tools = false) :
    (round_params g msgs system tools).tools = none ∧
    (round_params g msgs system tools).tool_choice = none := by
  simp [round_params, h]

/-! ### Call-count bounds of the round loop -/

/-- The round loop with fuel `f` issues at most `max 1 f` client calls. -/
theorem rounds_loop_calls_length (g : AIGenerator) (client : ClientFun)
    (tm : ToolManager) (tools : Option (List ToolSchema)) (system : String) :
    ∀ (fuel : Nat) (cur : ModelResponse) (msgs : List Message) (tr : Trace),
      (rounds_loop g client tm tools system fuel cur msgs tr).2.calls.length
        ≤ tr.calls.length + max 1 fuel := by
  intro fuel
  induction fuel with
  | zero =>
      intro cur msgs tr
      simp [rounds_loop, execute_final_round_snd]
  | succ n ih =>
      intro cur msgs tr
      have hmax : max 1 (n + 1) = n + 1 := Nat.max_eq_right (Nat.succ_le_succ (Nat.zero_le n))
      rw [hmax]
      by_cases h : n = 0
      · subst h
        simp [rounds_loop, execute_final_round_snd, record_tool_calls]
      · have hn : 1 ≤ n := Nat.one_le_iff_ne_zero.mpr h
        rw [rounds_loop]
        simp only [if_neg h, execute_round_with_tools_fst, execute_round_with_tools_snd,
          record_tool_calls_calls]
        cases hc : client tr.calls.length with
        | error e => simp
        | ok r =>
            dsimp only
            by_cases hs : r.stop_reason = "tool_use"
            · rw [if_pos hs]
              refine le_trans (ih r (process_tool_round tm cur msgs) _) ?_
              simp [Nat.max_eq_right hn]
              omega
            · rw [if_neg hs]
              cases hh : r.content.head? with
              | none => simp
              | some b => simp

/-- The round loop with fuel `f` issues at most `f - 1` tool-enabled client
calls (only `_execute_round_with_tools` can attach a `tools` key, and it
runs at most `f - 1` times; the final round never attaches one). -/
theorem rounds_loop_tool_enabled_count (g : AIGenerator) (client : ClientFun)
    (tm : ToolManager) (tools : Option (List ToolSchema)) (system : String) :
    ∀ (fuel : Nat) (cur : ModelResponse) (msgs : List Message) (tr : Trace),
      ((rounds_loop g client tm tools system fuel cur msgs tr).2.calls.countP
          (fun p => p.tools.isSome))
        ≤ tr.calls.countP (fun p => p.tools.isSome) + (fuel - 1) := by
  intro fuel
  induction fuel with
  | zero =>
      intro cur msgs tr
      simp [rounds_loop, execute_final_round_snd, List.countP_append, final_params]
  | succ n ih =>
      intro cur msgs tr
      by_cases h : n = 0
      · subst h
        simp [rounds_loop, execute_final_round_snd, record_tool_calls_calls,
          List.countP_append, final_params]
      · have hn : 1 ≤ n := Nat.one_le_iff_ne_zero.mpr h
        rw [rounds_loop]
        simp only [if_neg h, execute_round_with_tools_fst, execute_round_with_tools_snd,
          record_tool_calls_calls]
        cases hc : client tr.calls.length with
        | error e =>
            dsimp only
            simp only [List.countP_append, List.countP_singleton]
            split <;> omega
        | ok r =>
            dsimp only
            by_cases hs : r.stop_reason = "tool_use"
            · rw [if_pos hs]
              refine le_trans (ih r (process_tool_round tm cur msgs) _) ?_
              simp only [List.countP_append, List.countP_singleton]
              split <;> omega
            · rw [if_neg hs]
              cases hh : r.content.head? with
              | none =>
                  dsimp only
                  simp only [List.countP_append, List.countP_singleton]
                  split <;> omega
              | some b =>
                  dsimp only
                  simp only [List.countP_append, List.countP_singleton]
                  split <;> omega

/-- When the tool catalog is truthy, the round loop issues at most one
tool-free client call: the forced final round. -/
theorem rounds_loop_tool_free_count (g : AIGenerator) (client : ClientFun)
    (tm : ToolManager) (tools : Option (List ToolSchema)) (system : String)
    (ht : listTruthy tools = true) :
    ∀ (fuel : Nat) (cur : ModelResponse) (msgs : List Message) (tr : Trace),
      ((rounds_loop g client tm tools system fuel cur msgs tr).2.calls.countP
          (fun p => p.tools.isNone))
        ≤ tr.calls.countP (fun p => p.tools.isNone) + 1 := by
  obtain ⟨l, hl, -⟩ := listTruthy_some ht
  intro fuel
  induction fuel with
  | zero =>
      intro cur msgs tr
      simp [rounds_loop, execute_final_round_snd, List.countP_append, final_params]
  | succ n ih =>
      intro cur msgs tr
      by_cases h : n = 0
      · subst h
        simp [rounds_loop, execute_final_round_snd, record_tool_calls_calls,
          List.countP_append, final_params]
      · rw [rounds_loop]
        simp only [if_neg h, execute_round_with_tools_fst, execute_round_with_tools_snd,
          record_tool_calls_calls]
        have hq : (round_params g (process_tool_round tm cur msgs) system tools).tools
            = some l := by
          rw [(round_params_tools_truthy g _ system tools ht).1, hl]
        cases hc : client tr.calls.length with
        | error e =>
            dsimp only
            simp [List.countP_append, List.countP_singleton, hq]
        | ok r =>
            dsimp only
            by_cases hs : r.stop_reason = "tool_use"
            · rw [if_pos hs]
              refine le_trans (ih r (process_tool_round tm cur msgs) _) ?_
              simp [List.countP_append, List.countP_singleton, hq]
            · rw [if_neg hs]
              cases hh : r.content.head? with
              | none =>
                  dsimp only
                  simp [List.countP_append, List.countP_singleton, hq]
              | some b =>
                  dsimp only
                  simp [List.countP_append, List.countP_singleton, hq]

/-- C1: for every `max_rounds ≥ 1` and every sequence of model responses,
one orchestration call issues at most `max_rounds + 1` client calls in
total, of which at most `max_rounds` are tool-enabled, and — when a truthy
tool catalog was supplied — at most one is tool-free (the forced final
call). -/
theorem model_call_budget (g : AIGenerator) (client : ClientFun) (query : String)
    (hist : Option String) (tools : Option (List ToolSchema))
    (tm : Option ToolManager) (max_rounds : Nat) (hmr : 1 ≤ max_rounds) :
    ((generate_response_rounds g client query hist tools tm max_rounds).2.calls.length
        ≤ max_rounds + 1) ∧
    ((generate_response_rounds g client query hist tools tm max_rounds).2.calls.countP
        (fun p => p.tools.isSome) ≤ max_rounds) ∧
    (listTruthy tools = true →
      (generate_response_rounds g client query hist tools tm max_rounds).2.calls.countP
          (fun p => p.tools.isNone) ≤ 1) := by
  have hsingle : ∀ p : ApiParams,
      ([p].length ≤ max_rounds + 1) ∧
      (List.countP (fun p => p.tools.isSome) [p] ≤ max_rounds) ∧
      (listTruthy tools = true → p.tools = tools →
        List.countP (fun p => p.tools.isNone) [p] ≤ 1) := by
    intro p
    refine ⟨by simp, ?_, ?_⟩
    · simp only [List.countP_singleton]
      split <;> omega
    · intro ht hp
      obtain ⟨l, hl, -⟩ := listTruthy_some ht
      simp [List.countP_singleton, hp, hl]
  unfold generate_response_rounds
  simp only [callModel, List.length_nil]
  cases hc : client 0 with
  | error e =>
      dsimp only
      refine ⟨(hsingle _).1, (hsingle _).2.1, fun ht => (hsingle _).2.2 ht ?_⟩
      exact (round_params_tools_truthy g _ _ tools ht).1
  | ok resp =>
      dsimp only
      cases tm with
      | none =>
          cases hh : resp.content.head? with
          | none =>
              dsimp only
              refine ⟨(hsingle _).1, (hsingle _).2.1, fun ht => (hsingle _).2.2 ht ?_⟩
              exact (round_params_tools_truthy g _ _ tools ht).1
          | some b =>
              dsimp only
              refine ⟨(hsingle _).1, (hsingle _).2.1, fun ht => (hsingle _).2.2 ht ?_⟩
              exact (round_params_tools_truthy g _ _ tools ht).1
      | some tmm =>
          dsimp only
          by_cases hs : resp.stop_reason = "tool_use"
          · rw [if_pos hs]
            unfold handle_tool_execution_with_rounds
            refine ⟨?_, ?_, ?_⟩
            · refine le_trans (rounds_loop_calls_length g client tmm tools
                (build_system_content hist) max_rounds resp _ _) ?_
              simp only [Nat.max_eq_right hmr, List.nil_append, List.length_singleton]
              omega
            · refine le_trans (rounds_loop_tool_enabled_count g client tmm tools
                (build_system_content hist) max_rounds resp _ _) ?_
              simp only [List.nil_append, List.countP_singleton]
              split <;> omega
            · intro ht
              refine le_trans (rounds_loop_tool_free_count g client tmm tools
                (build_system_content hist) ht max_rounds resp _ _) ?_
              obtain ⟨l, hl, -⟩ := listTruthy_some ht
              subst hl
              have hp := (round_params_tools_truthy g
                [⟨"user", MsgContent.text query⟩] (build_system_content hist)
                (some l) ht).1
              simp [List.countP_singleton, hp]
          · rw [if_neg hs]
            cases hh : resp.content.head? with
            | none =>
                dsimp only
                refine ⟨(hsingle _).1, (hsingle _).2.1, fun ht => (hsingle _).2.2 ht ?_⟩
                exact (round_params_tools_truthy g _ _ tools ht).1
            | some b =>
                dsimp only
                refine ⟨(hsingle _).1, (hsingle _).2.1, fun ht => (hsingle _).2.2 ht ?_⟩
                exact (round_params_tools_truthy g _ _ tools ht).1

/-- Witness for `model_call_budget`: `max_rounds = 2`, a client that always
requests tools — three calls in total, two tool-enabled, one tool-free. -/
theorem model_call_budget_witness :
    1 ≤ 2 ∧
    ((generate_response_rounds ⟨"m"⟩
        (fun _ => Except.ok ⟨"tool_use", [⟨"tool_use", "t", "tool1", [], "id1"⟩]⟩)
        "q" none (some ["s1"]) (some ⟨fun _ _ => Except.ok "res"⟩) 2).2.calls.length
      ≤ 2 + 1) :=
  ⟨by decide,
   (model_call_budget ⟨"m"⟩
     (fun _ => Except.ok ⟨"tool_use", [⟨"tool_use", "t", "tool1", [], "id1"⟩]⟩)
     "q" none (some ["s1"]) (some ⟨fun _ _ => Except.ok "res"⟩) 2 (by decide)).1⟩

/-- When every client call succeeds with nonempty content, the round loop
always produces a final answer text, whatever the tools return. -/
theorem rounds_loop_completes (g : AIGenerator) (client : ClientFun)
    (tm : ToolManager) (tools : Option (List ToolSchema)) (system : String)
    (hok : ∀ k, ∃ r, client k = Except.ok r ∧ r.content ≠ []) :
    ∀ (fuel : Nat) (cur : ModelResponse) (msgs : List Message) (tr : Trace),
      ∃ t, (rounds_loop g client tm tools system fuel cur msgs tr).1 = Except.ok t := by
  intro fuel
  induction fuel with
  | zero =>
      intro cur msgs tr
      obtain ⟨r, hr, hne⟩ := hok tr.calls.length
      obtain ⟨b, bs, hcont⟩ := List.exists_cons_of_ne_nil hne
      exact ⟨b.text, by simp [rounds_loop, execute_final_round, callModel, hr, hcont]⟩
  | succ n ih =>
      intro cur msgs tr
      by_cases h : n = 0
      · subst h
        obtain ⟨r, hr, hne⟩ := hok tr.calls.length
        obtain ⟨b, bs, hcont⟩ := List.exists_cons_of_ne_nil hne
        refine ⟨b.text, ?_⟩
        simp [rounds_loop, execute_final_round, callModel, record_tool_calls_calls,
          hr, hcont]
      · rw [rounds_loop]
        simp only [if_neg h, execute_round_with_tools_fst, execute_round_with_tools_snd,
          record_tool_calls_calls]
        obtain ⟨r, hr, hne⟩ := hok tr.calls.length
        rw [hr]
        dsimp only
        by_cases hs : r.stop_reason = "tool_use"
        · rw [if_pos hs]
          exact ih r (process_tool_round tm cur msgs) _
        · rw [if_neg hs]
          obtain ⟨b, bs, hcont⟩ := List.exists_cons_of_ne_nil hne
          exact ⟨b.text, by simp [hcont]⟩

/-- C4: an exception raised inside `execute_tool` is caught locally: its
string representation becomes the `content` of that request's tool-result
record (keyed by the request's `id`), the record is placed in the transcript
as an ordinary tool result, and — whenever the client itself behaves (every
call returns a response with nonempty content) — the whole orchestration
still completes with an `Except.ok` final answer, never an error. -/
theorem tool_errors_absorbed :
    (∀ (tm : ToolManager) (resp : ModelResponse) (msgs : List Message)
       (b : ContentBlock) (e : String),
       b ∈ resp.content → b.type = "tool_use" →
       tm.execute_tool b.name b.input = Except.error e →
       (⟨"tool_result", b.id, e⟩ : ToolResultRecord) ∈ tool_results_of tm resp ∧
       Message.mk "user" (MsgContent.results (tool_results_of tm resp))
         ∈ process_tool_round tm resp msgs) ∧
    (∀ (g : AIGenerator) (client : ClientFun) (query : String)
       (hist : Option String) (tools : Option (List ToolSchema))
       (tm : Option ToolManager) (max_rounds : Nat),
       (∀ k, ∃ r, client k = Except.ok r ∧ r.content ≠ []) →
       ∃ t, (generate_response_rounds g client query hist tools tm max_rounds).1
         = Except.ok t) := by
  constructor
  · intro tm resp msgs b e hmem htype herr
    have hb : b ∈ tool_use_blocks resp := by
      simp [tool_use_blocks, List.mem_filter, hmem, htype]
    have hrec : (⟨"tool_result", b.id, e⟩ : ToolResultRecord)
        ∈ tool_results_of tm resp := by
      refine List.mem_map.mpr ⟨b, hb, ?_⟩
      simp [runToolCall, herr]
    refine ⟨hrec, ?_⟩
    have hne : ¬(tool_results_of tm resp).isEmpty := by
      simp [List.isEmpty_iff]
      exact List.ne_nil_of_mem hrec
    simp [process_tool_round, hne]
  · intro g client query hist tools tm max_rounds hok
    obtain ⟨r0, hr0, hne0⟩ := hok 0
    obtain ⟨b, bs, hcont⟩ := List.exists_cons_of_ne_nil hne0
    unfold generate_response_rounds
    simp only [callModel, List.length_nil, hr0]
    cases tm with
    | none => exact ⟨b.text, by simp [hcont]⟩
    | some tmm =>
        dsimp only
        by_cases hs : r0.stop_reason = "tool_use"
        · rw [if_pos hs]
          exact rounds_loop_completes g client tmm tools (build_system_content hist)
            hok max_rounds r0 _ _
        · rw [if_neg hs]
          exact ⟨b.text, by simp [hcont]⟩

/-- Witness for `tool_errors_absorbed`: a tool that always raises, a client
that requests it and then answers — the error text lands in the transcript
and the run returns `Except.ok`. -/
theorem tool_errors_absorbed_witness :
    ((⟨"tool_result", "id1", "boom"⟩ : ToolResultRecord)
       ∈ tool_results_of ⟨fun _ _ => Except.error "boom"⟩
           ⟨"tool_use", [⟨"tool_use", "t", "tool1", [], "id1"⟩]⟩) ∧
    (∃ t, (generate_response_rounds ⟨"m"⟩
        (fun n => if n = 0
          then Except.ok ⟨"tool_use", [⟨"tool_use", "t", "tool1", [], "id1"⟩]⟩
          else Except.ok ⟨"end_turn", [⟨"text", "done", "", [], ""⟩]⟩)
        "q" none (some ["s1"]) (some ⟨fun _ _ => Except.error "boom"⟩) 2).1
      = Except.ok t) := by
  constructor
  · exact (tool_errors_absorbed.1 ⟨fun _ _ => Except.error "boom"⟩
      ⟨"tool_use", [⟨"tool_use", "t", "tool1", [], "id1"⟩]⟩ []
      ⟨"tool_use", "t", "tool1", [], "id1"⟩ "boom"
      (by decide) rfl rfl).1
  · refine tool_errors_absorbed.2 ⟨"m"⟩ _ "q" none (some ["s1"])
      (some ⟨fun _ _ => Except.error "boom"⟩) 2 ?_
    intro k
    by_cases hk : k = 0
    · subst hk
      exact ⟨⟨"tool_use", [⟨"tool_use", "t", "tool1", [], "id1"⟩]⟩, by simp, by decide⟩
    · exact ⟨⟨"end_turn", [⟨"text", "done", "", [], ""⟩]⟩, by simp [hk], by decide⟩

/-! ### Step equations of the round loop -/

theorem rounds_loop_zero (g : AIGenerator) (client : ClientFun) (tm : ToolManager)
    (tools : Option (List ToolSchema)) (system : String) (cur : ModelResponse)
    (msgs : List Message) (tr : Trace) :
    rounds_loop g client tm tools system 0 cur msgs tr
      = execute_final_round g client msgs system tr := rfl

theorem rounds_loop_one (g : AIGenerator) (client : ClientFun) (tm : ToolManager)
    (tools : Option (List ToolSchema)) (system : String) (cur : ModelResponse)
    (msgs : List Message) (tr : Trace) :
    rounds_loop g client tm tools system 1 cur msgs tr
      = execute_final_round g client (process_tool_round tm cur msgs) system
          (record_tool_calls cur tr) := rfl

theorem rounds_loop_succ_error (g : AIGenerator) (client : ClientFun)
    (tm : ToolManager) (tools : Option (List ToolSchema)) (system : String)
    (n : Nat) (cur : ModelResponse) (msgs : List Message) (tr : Trace) (e : String)
    (h : n ≠ 0) (hc : client tr.calls.length = Except.error e) :
    rounds_loop g client tm tools system (n + 1) cur msgs tr
      = (Except.error (RunError.client e),
         ⟨tr.calls ++ [round_params g (process_tool_round tm cur msgs) system tools],
          (record_tool_calls cur tr).toolCalls⟩) := by
  rw [rounds_loop]
  simp only [if_neg h, execute_round_with_tools_fst, execute_round_with_tools_snd,
    record_tool_calls_calls, hc]

theorem rounds_loop_succ_continue (g : AIGenerator) (client : ClientFun)
    (tm : ToolManager) (tools : Option (List ToolSchema)) (system : String)
    (n : Nat) (cur : ModelResponse) (msgs : List Message) (tr : Trace)
    (r : ModelResponse)
    (h : n ≠ 0) (hc : client tr.calls.length = Except.ok r)
    (hs : r.stop_reason = "tool_use") :
    rounds_loop g client tm tools system (n + 1) cur msgs tr
      = rounds_loop g client tm tools system n r (process_tool_round tm cur msgs)
          ⟨tr.calls ++ [round_params g (process_tool_round tm cur msgs) system tools],
           (record_tool_calls cur tr).toolCalls⟩ := by
  rw [rounds_loop]
  simp only [if_neg h, execute_round_with_tools_fst, execute_round_with_tools_snd,
    record_tool_calls_calls, hc]
  rw [if_pos hs]

theorem rounds_loop_succ_stop (g : AIGenerator) (client : ClientFun)
    (tm : ToolManager) (tools : Option (List ToolSchema)) (system : String)
    (n : Nat) (cur : ModelResponse) (msgs : List Message) (tr : Trace)
    (r : ModelResponse)
    (h : n ≠ 0) (hc : client tr.calls.length = Except.ok r)
    (hs : r.stop_reason ≠ "tool_use") :
    rounds_loop g client tm tools system (n + 1) cur msgs tr
      = ((match r.content.head? with
          | none => Except.error RunError.emptyContent
          | some b => Except.ok b.text),
         ⟨tr.calls ++ [round_params g (process_tool_round tm cur msgs) system tools],
          (record_tool_calls cur tr).toolCalls⟩) := by
  rw [rounds_loop]
  simp only [if_neg h, execute_round_with_tools_fst, execute_round_with_tools_snd,
    record_tool_calls_calls, hc]
  rw [if_neg hs]
  cases r.content.head? with
  | none => rfl
  | some b => rfl

theorem execute_final_round_error (g : AIGenerator) (client : ClientFun)
    (msgs : List Message) (system : String) (tr : Trace) (e : String)
    (hc : client tr.calls.length = Except.error e) :
    (execute_final_round g client msgs system tr).1
      = Except.error (RunError.client e) := by
  simp [execute_final_round, callModel, hc]

/-- Once a client call raises, the round loop issues no further call and
returns exactly that error: the failing call is the last one logged. -/
theorem rounds_loop_error_stops (g : AIGenerator) (client : ClientFun)
    (tm : ToolManager) (tools : Option (List ToolSchema)) (system : String) :
    ∀ (fuel : Nat) (cur : ModelResponse) (msgs : List Message) (tr : Trace),
      (∀ j, j < tr.calls.length → ∃ r, client j = Except.ok r) →
      ∀ (k : Nat) (e : String),
        k < (rounds_loop g client tm tools system fuel cur msgs tr).2.calls.length →
        client k = Except.error e →
        k + 1 = (rounds_loop g client tm tools system fuel cur msgs tr).2.calls.length ∧
        (rounds_loop g client tm tools system fuel cur msgs tr).1
          = Except.error (RunError.client e) := by
  intro fuel
  induction fuel with
  | zero =>
      intro cur msgs tr hpre k e hk he
      rw [rounds_loop_zero] at hk ⊢
      rw [execute_final_round_snd] at hk ⊢
      simp only [List.length_append, List.length_singleton] at hk ⊢
      have hkeq : k = tr.calls.length := by
        rcases Nat.lt_succ_iff_lt_or_eq.mp hk with hlt | heq
        · obtain ⟨r, hr⟩ := hpre k hlt
          rw [hr] at he
          exact absurd he (by simp)
        · exact heq
      subst hkeq
      exact ⟨rfl, execute_final_round_error g client msgs system tr e he⟩
  | succ n ih =>
      intro cur msgs tr hpre k e hk he
      by_cases h : n = 0
      · subst h
        rw [rounds_loop_one] at hk ⊢
        rw [execute_final_round_snd] at hk ⊢
        simp only [List.length_append, List.length_singleton,
          record_tool_calls_calls] at hk ⊢
        have hkeq : k = tr.calls.length := by
          rcases Nat.lt_succ_iff_lt_or_eq.mp hk with hlt | heq
          · obtain ⟨r, hr⟩ := hpre k hlt
            rw [hr] at he
            exact absurd he (by simp)
          · exact heq
        subst hkeq
        refine ⟨rfl, ?_⟩
        have he2 : client (record_tool_calls cur tr).calls.length = Except.error e := by
          rw [record_tool_calls_calls]
          exact he
        exact execute_final_round_error g client _ system _ e he2
      · cases hc : client tr.calls.length with
        | error e0 =>
            rw [rounds_loop_succ_error g client tm tools system n cur msgs tr e0 h hc]
              at hk ⊢
            simp only [List.length_append, List.length_singleton] at hk ⊢
            have hkeq : k = tr.calls.length := by
              rcases Nat.lt_succ_iff_lt_or_eq.mp hk with hlt | heq
              · obtain ⟨r, hr⟩ := hpre k hlt
                rw [hr] at he
                exact absurd he (by simp)
              · exact heq
            subst hkeq
            rw [hc] at he
            have : e0 = e := by
              simpa using he
            subst this
            exact ⟨rfl, rfl⟩
        | ok r =>
            have hpre2 : ∀ j, j < tr.calls.length + 1 → ∃ r2, client j = Except.ok r2 := by
              intro j hj
              rcases Nat.lt_succ_iff_lt_or_eq.mp hj with hlt | heq
              · exact hpre j hlt
              · subst heq
                exact ⟨r, hc⟩
            by_cases hs : r.stop_reason = "tool_use"
            · rw [rounds_loop_succ_continue g client tm tools system n cur msgs tr r
                h hc hs] at hk ⊢
              refine ih r (process_tool_round tm cur msgs) _ ?_ k e hk he
              simpa using hpre2
            · rw [rounds_loop_succ_stop g client tm tools system n cur msgs tr r
                h hc hs] at hk ⊢
              simp only [List.length_append, List.length_singleton] at hk
              have hkeq : k = tr.calls.length := by
                rcases Nat.lt_succ_iff_lt_or_eq.mp hk with hlt | heq
                · obtain ⟨r2, hr2⟩ := hpre k hlt
                  rw [hr2] at he
                  exact absurd he (by simp)
                · exact heq
              subst hkeq
              rw [hc] at he
              exact absurd he (by simp)

/-- C5: an exception raised by any `messages.create` call — initial round,
intermediate tool-enabled round, or forced final round — propagates out of
`generate_response` unmodified: the failing call is the last one issued
(no retry) and the run's result is exactly that error (no catch, no
masking). -/
theorem client_error_propagates (g : AIGenerator) (client : ClientFun)
    (query : String) (hist : Option String) (tools : Option (List ToolSchema))
    (tm : Option ToolManager) (max_rounds : Nat) (k : Nat) (e : String)
    (hk : k < (generate_response_rounds g client query hist tools tm
        max_rounds).2.calls.length)
    (he : client k = Except.error e) :
    k + 1 = (generate_response_rounds g client query hist tools tm
        max_rounds).2.calls.length ∧
    (generate_response_rounds g client query hist tools tm max_rounds).1
      = Except.error (RunError.client e) := by
  unfold generate_response_rounds at hk ⊢
  simp only [callModel, List.length_nil] at hk ⊢
  cases hc : client 0 with
  | error e0 =>
      rw [hc] at hk
      dsimp only at hk ⊢
      simp only [List.nil_append, List.length_singleton] at hk ⊢
      have hkeq : k = 0 := Nat.lt_one_iff.mp hk
      subst hkeq
      rw [hc] at he
      have : e0 = e := by simpa using he
      subst this
      exact ⟨rfl, rfl⟩
  | ok resp =>
      rw [hc] at hk
      dsimp only at hk ⊢
      cases tm with
      | none =>
          dsimp only at hk ⊢
          cases hh : resp.content.head? with
          | none =>
              rw [hh] at hk
              dsimp only at hk ⊢
              simp only [List.nil_append, List.length_singleton] at hk
              have hkeq : k = 0 := Nat.lt_one_iff.mp hk
              subst hkeq
              rw [hc] at he
              exact absurd he (by simp)
          | some b =>
              rw [hh] at hk
              dsimp only at hk ⊢
              simp only [List.nil_append, List.length_singleton] at hk
              have hkeq : k = 0 := Nat.lt_one_iff.mp hk
              subst hkeq
              rw [hc] at he
              exact absurd he (by simp)
      | some tmm =>
          dsimp only at hk ⊢
          by_cases hs : resp.stop_reason = "tool_use"
          · rw [if_pos hs] at hk ⊢
            unfold handle_tool_execution_with_rounds at hk ⊢
            refine rounds_loop_error_stops g client tmm tools
              (build_system_content hist) max_rounds resp
              [⟨"user", MsgContent.text query⟩] _ ?_ k e hk he
            intro j hj
            simp only [List.nil_append, List.length_singleton] at hj
            have : j = 0 := Nat.lt_one_iff.mp hj
            subst this
            exact ⟨resp, hc⟩
          · rw [if_neg hs] at hk ⊢
            cases hh : resp.content.head? with
            | none =>
                rw [hh] at hk
                dsimp only at hk ⊢
                simp only [List.nil_append, List.length_singleton] at hk
                have hkeq : k = 0 := Nat.lt_one_iff.mp hk
                subst hkeq
                rw [hc] at he
                exact absurd he (by simp)
            | some b =>
                rw [hh] at hk
                dsimp only at hk ⊢
                simp only [List.nil_append, List.length_singleton] at hk
                have hkeq : k = 0 := Nat.lt_one_iff.mp hk
                subst hkeq
                rw [hc] at he
                exact absurd he (by simp)

/-- Witness for `client_error_propagates`: a client that raises on the very
first call. -/
theorem client_error_propagates_witness :
    0 + 1 = (generate_response_rounds ⟨"m"⟩ (fun _ => Except.error "boom")
        "q" none (some ["s1"]) none 2).2.calls.length ∧
    (generate_response_rounds ⟨"m"⟩ (fun _ => Except.error "boom")
        "q" none (some ["s1"]) none 2).1
      = Except.error (RunError.client "boom") :=
  client_error_propagates ⟨"m"⟩ (fun _ => Except.error "boom") "q" none
    (some ["s1"]) none 2 0 "boom" (by decide) rfl

/-! ### The shape of every issued parameter record -/

/-- What every parameter record issued within one orchestration run looks
like: the base params (model, temperature 0, max_tokens 800), the system
string fixed at entry and, for the `tools` key, either absent (together
with `tool_choice`) or exactly the supplied truthy catalog with
`tool_choice = auto`. -/
def good_params (g : AIGenerator) (system : String)
    (tools : Option (List ToolSchema)) (p : ApiParams) : Prop :=
  p.model = g.model ∧ p.temperature = 0 ∧ p.max_tokens = 800 ∧
  p.system = system ∧
  ((p.tools = none ∧ p.tool_choice = none) ∨
   (listTruthy tools = true ∧ p.tools = tools ∧ p.tool_choice = some "auto"))

theorem final_params_good (g : AIGenerator) (msgs : List Message)
    (system : String) (tools : Option (List ToolSchema)) :
    good_params g system tools (final_params g msgs system) := by
  exact ⟨rfl, rfl, rfl, rfl, Or.inl ⟨rfl, rfl⟩⟩

theorem round_params_good (g : AIGenerator) (msgs : List Message)
    (system : String) (tools : Option (List ToolSchema)) :
    good_params g system tools (round_params g msgs system tools) := by
  by_cases ht : listTruthy tools
  · obtain ⟨hto, htc⟩ := round_params_tools_truthy g msgs system tools ht
    refine ⟨?_, ?_, ?_, ?_, Or.inr ⟨ht, hto, htc⟩⟩ <;> simp [round_params, ht]
  · obtain ⟨hto, htc⟩ := round_params_tools_falsy g msgs system tools
      (by simpa using ht)
    refine ⟨?_, ?_, ?_, ?_, Or.inl ⟨hto, htc⟩⟩ <;> simp [round_params, ht]

/-- Every call the round loop adds to the log carries `good_params`. -/
theorem rounds_loop_params_good (g : AIGenerator) (client : ClientFun)
    (tm : ToolManager) (tools : Option (List ToolSchema)) (system : String) :
    ∀ (fuel : Nat) (cur : ModelResponse) (msgs : List Message) (tr : Trace)
      (p : ApiParams),
      p ∈ (rounds_loop g client tm tools system fuel cur msgs tr).2.calls →
      p ∈ tr.calls ∨ good_params g system tools p := by
  intro fuel
  induction fuel with
  | zero =>
      intro cur msgs tr p hp
      rw [rounds_loop_zero, execute_final_round_snd] at hp
      rcases List.mem_append.mp hp with h | h
      · exact Or.inl h
      · right
        rw [List.mem_singleton.mp h]
        exact final_params_good g msgs system tools
  | succ n ih =>
      intro cur msgs tr p hp
      by_cases h : n = 0
      · subst h
        rw [rounds_loop_one, execute_final_round_snd, record_tool_calls_calls] at hp
        rcases List.mem_append.mp hp with h2 | h2
        · exact Or.inl h2
        · right
          rw [List.mem_singleton.mp h2]
          exact final_params_good g _ system tools
      · cases hc : client tr.calls.length with
        | error e =>
            rw [rounds_loop_succ_error g client tm tools system n cur msgs tr e h hc]
              at hp
            rcases List.mem_append.mp hp with h2 | h2
            · exact Or.inl h2
            · right
              rw [List.mem_singleton.mp h2]
              exact round_params_good g _ system tools
        | ok r =>
            by_cases hs : r.stop_reason = "tool_use"
            · rw [rounds_loop_succ_continue g client tm tools system n cur msgs tr r
                h hc hs] at hp
              rcases ih r (process_tool_round tm cur msgs) _ p hp with h2 | h2
              · rcases List.mem_append.mp h2 with h3 | h3
                · exact Or.inl h3
                · right
                  rw [List.mem_singleton.mp h3]
                  exact round_params_good g _ system tools
              · exact Or.inr h2
            · rw [rounds_loop_succ_stop g client tm tools system n cur msgs tr r
                h hc hs] at hp
              rcases List.mem_append.mp hp with h2 | h2
              · exact Or.inl h2
              · right
                rw [List.mem_singleton.mp h2]
                exact round_params_good g _ system tools

/-- Every call issued by one `generate_response_rounds` run carries
`good_params` for the system string composed at entry. -/
theorem generate_calls_good (g : AIGenerator) (client : ClientFun)
    (query : String) (hist : Option String) (tools : Option (List ToolSchema))
    (tm : Option ToolManager) (max_rounds : Nat) :
    ∀ p ∈ (generate_response_rounds g client query hist tools tm
        max_rounds).2.calls,
      good_params g (build_system_content hist) tools p := by
  intro p hp
  unfold generate_response_rounds at hp
  simp only [callModel, List.length_nil] at hp
  have hinit : ∀ q : ApiParams,
      q ∈ ([] ++ [round_params g [⟨"user", MsgContent.text query⟩]
          (build_system_content hist) tools] : List ApiParams) →
      good_params g (build_system_content hist) tools q := by
    intro q hq
    simp only [List.nil_append, List.mem_singleton] at hq
    rw [hq]
    exact round_params_good g _ _ tools
  cases hc : client 0 with
  | error e =>
      rw [hc] at hp
      dsimp only at hp
      exact hinit p hp
  | ok resp =>
      rw [hc] at hp
      dsimp only at hp
      cases tm with
      | none =>
          cases hh : resp.content.head? with
          | none =>
              rw [hh] at hp
              exact hinit p hp
          | some b =>
              rw [hh] at hp
              exact hinit p hp
      | some tmm =>
          dsimp only at hp
          by_cases hs : resp.stop_reason = "tool_use"
          · rw [if_pos hs] at hp
            unfold handle_tool_execution_with_rounds at hp
            rcases rounds_loop_params_good g client tmm tools
              (build_system_content hist) max_rounds resp _ _ p hp with h2 | h2
            · exact hinit p h2
            · exact h2
          · rw [if_neg hs] at hp
            cases hh : resp.content.head? with
            | none =>
                rw [hh] at hp
                exact hinit p hp
            | some b =>
                rw [hh] at hp
                exact hinit p hp

/-- C10: every client call of one run uses the generator's model name,
temperature 0, max_tokens 800, and a system string identical to the one
composed for the first call: the fixed prompt, with the separator and the
history appended exactly when a truthy (non-`None`, non-empty) history was
supplied. -/
theorem api_params_constant (g : AIGenerator) (client : ClientFun)
    (query : String) (hist : Option String) (tools : Option (List ToolSchema))
    (tm : Option ToolManager) (max_rounds : Nat) :
    (∀ p ∈ (generate_response_rounds g client query hist tools tm
        max_rounds).2.calls,
       p.model = g.model ∧ p.temperature = 0 ∧ p.max_tokens = 800 ∧
       p.system = build_system_content hist) ∧
    ((hist = none ∨ hist = some "") → build_system_content hist = SYSTEM_PROMPT) ∧
    (∀ h, hist = some h → h ≠ "" →
       build_system_content hist
         = SYSTEM_PROMPT ++ "\n\nPrevious conversation:\n" ++ h) := by
  refine ⟨?_, ?_, ?_⟩
  · intro p hp
    obtain ⟨h1, h2, h3, h4, -⟩ :=
      generate_calls_good g client query hist tools tm max_rounds p hp
    exact ⟨h1, h2, h3, h4⟩
  · rintro (h | h) <;> subst h <;> simp [build_system_content]
  · intro h hh hne
    subst hh
    simp [build_system_content, hne]

/-- Witness for `api_params_constant` at a concrete input with a nonempty
history. -/
theorem api_params_constant_witness :
    (∀ p ∈ (generate_response_rounds ⟨"m"⟩
        (fun _ => Except.ok ⟨"end_turn", [⟨"text", "hello", "", [], ""⟩]⟩)
        "q" (some "hi") (some ["s1"]) none 2).2.calls,
       p.model = "m" ∧ p.temperature = 0 ∧ p.max_tokens = 800 ∧
       p.system = build_system_content (some "hi")) ∧
    build_system_content (some "hi")
      = SYSTEM_PROMPT ++ "\n\nPrevious conversation:\n" ++ "hi" := by
  have h := api_params_constant ⟨"m"⟩
    (fun _ => Except.ok ⟨"end_turn", [⟨"text", "hello", "", [], ""⟩]⟩)
    "q" (some "hi") (some ["s1"]) none 2
  exact ⟨h.1, h.2.2 "hi" rfl (by decide)⟩

/-- A run whose first response either succeeds without requesting tools, or
errors, or runs without a tool manager, issues exactly the one initial call
and executes no tool. -/
theorem generate_trace_single (g : AIGenerator) (client : ClientFun)
    (query : String) (hist : Option String) (tools : Option (List ToolSchema))
    (tm : Option ToolManager) (max_rounds : Nat)
    (h : ∀ resp, client 0 = Except.ok resp → resp.stop_reason = "tool_use" →
      tm = none) :
    (generate_response_rounds g client query hist tools tm max_rounds).2
      = ⟨[round_params g [⟨"user", MsgContent.text query⟩]
          (build_system_content hist) tools], []⟩ := by
  unfold generate_response_rounds
  simp only [callModel, List.length_nil]
  cases hc : client 0 with
  | error e => rfl
  | ok resp =>
      dsimp only
      cases htm : tm with
      | none =>
          cases hh : resp.content.head? with
          | none => simp [hh]
          | some b => simp [hh]
      | some tmm =>
          dsimp only
          by_cases hs : resp.stop_reason = "tool_use"
          · have hcon := (h resp hc hs).symm.trans htm
            simp at hcon
          · rw [if_neg hs]
            cases hh : resp.content.head? with
            | none => simp [hh]
            | some b => simp [hh]

/-- C7 counterexample: with `tool_catalog = None` but a first response whose
stop reason is `tool_use` and a tool manager supplied, the guard at line 99
(which tests only `stop_reason` and `tool_manager`, not `tools`) still
enters the round handler: this run issues three client calls and executes
two tools — not exactly one call and zero executions, although no tool
catalog was supplied.  So the claim fails for this model response and
tool_manager argument. -/
theorem no_tools_counterexample :
    ((generate_response ⟨"m"⟩
        (fun _ => Except.ok ⟨"tool_use", [⟨"tool_use", "t", "tool1", [], "id1"⟩]⟩)
        "q" none none (some ⟨fun _ _ => Except.ok "res"⟩)).2.calls.length = 3) ∧
    ((generate_response ⟨"m"⟩
        (fun _ => Except.ok ⟨"tool_use", [⟨"tool_use", "t", "tool1", [], "id1"⟩]⟩)
        "q" none none (some ⟨fun _ _ => Except.ok "res"⟩)).2.toolCalls.length = 2) ∧
    ((generate_response ⟨"m"⟩
        (fun _ => Except.ok ⟨"tool_use", [⟨"tool_use", "t", "tool1", [], "id1"⟩]⟩)
        "q" none none (some ⟨fun _ _ => Except.ok "res"⟩)).2.calls.length ≠ 1) :=
  ⟨rfl, rfl, by decide⟩

/-- C7 (amended): if no tool catalog is supplied, no `tools` or
`tool_choice` parameter is ever sent to the client in any call of the run;
and provided the first response's stop reason does not request tools, or no
tool_manager is supplied, exactly one client call is made and no tool is
executed. -/
theorem no_tools_never_offered (g : AIGenerator) (client : ClientFun)
    (query : String) (hist : Option String) (tm : Option ToolManager) :
    (∀ p ∈ (generate_response g client query hist none tm).2.calls,
       p.tools = none ∧ p.tool_choice = none) ∧
    (∀ resp, client 0 = Except.ok resp →
       (resp.stop_reason ≠ "tool_use" ∨ tm = none) →
       (generate_response g client query hist none tm).2.calls.length = 1 ∧
       (generate_response g client query hist none tm).2.toolCalls = []) := by
  constructor
  · intro p hp
    rcases (generate_calls_good g client query hist none tm 2 p hp).2.2.2.2
      with h | h
    · exact h
    · exact absurd h.1 (by simp [listTruthy])
  · intro resp hc hd
    have harg : ∀ resp2, client 0 = Except.ok resp2 →
        resp2.stop_reason = "tool_use" → tm = none := by
      intro resp2 hc2 hs2
      rcases hd with hs | htm
      · rw [hc] at hc2
        injection hc2 with heq
        subst heq
        exact absurd hs2 hs
      · exact htm
    have hsingle := generate_trace_single g client query hist none tm 2 harg
    unfold generate_response
    rw [hsingle]
    exact ⟨rfl, rfl⟩

/-- Witness for `no_tools_never_offered`, exercising the no-tool_manager
disjunct: the first response requests tools, yet with `tool_manager = None`
(and no catalog) exactly one call is issued and no tool executes. -/
theorem no_tools_never_offered_witness :
    (∀ p ∈ (generate_response ⟨"m"⟩
        (fun _ => Except.ok ⟨"tool_use", [⟨"tool_use", "t", "tool1", [], "id1"⟩]⟩)
        "q" none none none).2.calls,
       p.tools = none ∧ p.tool_choice = none) ∧
    ((generate_response ⟨"m"⟩
        (fun _ => Except.ok ⟨"tool_use", [⟨"tool_use", "t", "tool1", [], "id1"⟩]⟩)
        "q" none none none).2.calls.length = 1 ∧
     (generate_response ⟨"m"⟩
        (fun _ => Except.ok ⟨"tool_use", [⟨"tool_use", "t", "tool1", [], "id1"⟩]⟩)
        "q" none none none).2.toolCalls = []) := by
  have h := no_tools_never_offered ⟨"m"⟩
    (fun _ => Except.ok ⟨"tool_use", [⟨"tool_use", "t", "tool1", [], "id1"⟩]⟩)
    "q" none none
  exact ⟨h.1, h.2 ⟨"tool_use", [⟨"tool_use", "t", "tool1", [], "id1"⟩]⟩ rfl
    (Or.inr rfl)⟩

theorem round_params_messages (g : AIGenerator) (msgs : List Message)
    (system : String) (tools : Option (List ToolSchema)) :
    (round_params g msgs system tools).messages = msgs := by
  unfold round_params
  split
  · rfl
  · rfl

/-! ### Append-only transcript growth -/

/-- A message appended during a tool round: the assistant turn carrying the
model's content blocks, or the user turn carrying tool results. -/
def round_message (m : Message) : Prop :=
  (∃ bs, m = ⟨"assistant", MsgContent.blocks bs⟩) ∨
  (∃ rs, m = ⟨"user", MsgContent.results rs⟩)

theorem process_tool_round_decomp (tm : ToolManager) (resp : ModelResponse)
    (msgs : List Message) :
    ∃ ext, process_tool_round tm resp msgs = msgs ++ ext ∧
      ∀ m ∈ ext, round_message m := by
  by_cases h : (tool_results_of tm resp).isEmpty
  · refine ⟨[⟨"assistant", MsgContent.blocks resp.content⟩], ?_, ?_⟩
    · simp [process_tool_round, h]
    · intro m hm
      rw [List.mem_singleton.mp hm]
      exact Or.inl ⟨resp.content, rfl⟩
  · refine ⟨[⟨"assistant", MsgContent.blocks resp.content⟩,
             ⟨"user", MsgContent.results (tool_results_of tm resp)⟩], ?_, ?_⟩
    · simp [process_tool_round, h]
    · intro m hm
      rcases List.mem_cons.mp hm with h1 | h1
      · rw [h1]
        exact Or.inl ⟨resp.content, rfl⟩
      · rw [List.mem_singleton.mp h1]
        exact Or.inr ⟨tool_results_of tm resp, rfl⟩

/-- The message lists of successive calls form a chain of list prefixes
starting from `base`: each call's transcript extends the previous one. -/
def chainFrom (base : List Message) : List ApiParams → Prop
  | [] => True
  | q :: qs => (base <+: q.messages) ∧ chainFrom q.messages qs

theorem chainFrom_base_prefix : ∀ (l : List ApiParams) (base : List Message),
    chainFrom base l → ∀ q ∈ l, base <+: q.messages := by
  intro l
  induction l with
  | nil =>
      intro base _ q hq
      exact absurd hq (List.not_mem_nil q)
  | cons a as ih =>
      intro base h q hq
      rcases List.mem_cons.mp hq with h1 | h1
      · rw [h1]
        exact h.1
      · exact h.1.trans (ih a.messages h.2 q h1)

theorem chainFrom_get_prefix : ∀ (l : List ApiParams) (base : List Message),
    chainFrom base l →
    ∀ (i j : Nat) (hi : i < l.length) (hj : j < l.length), i ≤ j →
      (l.get ⟨i, hi⟩).messages <+: (l.get ⟨j, hj⟩).messages := by
  intro l
  induction l with
  | nil =>
      intro base _ i j hi
      exact absurd hi (by simp)
  | cons a as ih =>
      intro base h i j hi hj hij
      cases i with
      | zero =>
          cases j with
          | zero => exact List.prefix_refl _
          | succ j2 =>
              have hg : (a :: as).get ⟨j2 + 1, hj⟩
                  = as.get ⟨j2, Nat.lt_of_succ_lt_succ hj⟩ := rfl
              rw [hg]
              exact chainFrom_base_prefix as a.messages h.2 _
                (List.get_mem as j2 (Nat.lt_of_succ_lt_succ hj))
      | succ i2 =>
          cases j with
          | zero => omega
          | succ j2 =>
              exact ih a.messages h.2 i2 j2
                (Nat.lt_of_succ_lt_succ hi) (Nat.lt_of_succ_lt_succ hj)
                (Nat.le_of_succ_le_succ hij)

/-- Every call the round loop appends to the log has a transcript of the
form `msgs ++ ext` with `ext` made of round messages only, and successive
calls are prefix-chained from `msgs`. -/
theorem rounds_loop_chain (g : AIGenerator) (client : ClientFun)
    (tm : ToolManager) (tools : Option (List ToolSchema)) (system : String) :
    ∀ (fuel : Nat) (cur : ModelResponse) (msgs : List Message) (tr : Trace),
      ∃ new,
        (rounds_loop g client tm tools system fuel cur msgs tr).2.calls
          = tr.calls ++ new ∧
        chainFrom msgs new ∧
        ∀ q ∈ new, ∃ ext, q.messages = msgs ++ ext ∧ ∀ m ∈ ext, round_message m := by
  intro fuel
  induction fuel with
  | zero =>
      intro cur msgs tr
      refine ⟨[final_params g msgs system], ?_, ?_, ?_⟩
      · rw [rounds_loop_zero, execute_final_round_snd]
      · exact ⟨List.prefix_refl msgs, trivial⟩
      · intro q hq
        rw [List.mem_singleton.mp hq]
        exact ⟨[], by simp [final_params], fun m hm => absurd hm (List.not_mem_nil m)⟩
  | succ n ih =>
      intro cur msgs tr
      obtain ⟨e1, he1, hre1⟩ := process_tool_round_decomp tm cur msgs
      by_cases h : n = 0
      · subst h
        refine ⟨[final_params g (process_tool_round tm cur msgs) system], ?_, ?_, ?_⟩
        · rw [rounds_loop_one, execute_final_round_snd, record_tool_calls_calls]
        · refine ⟨?_, trivial⟩
          show msgs <+: process_tool_round tm cur msgs
          rw [he1]
          exact List.prefix_append msgs e1
        · intro q hq
          rw [List.mem_singleton.mp hq]
          exact ⟨e1, he1, hre1⟩
      · cases hc : client tr.calls.length with
        | error e =>
            refine ⟨[round_params g (process_tool_round tm cur msgs) system tools],
              ?_, ?_, ?_⟩
            · rw [rounds_loop_succ_error g client tm tools system n cur msgs tr e h hc]
            · refine ⟨?_, trivial⟩
              rw [round_params_messages, he1]
              exact List.prefix_append msgs e1
            · intro q hq
              rw [List.mem_singleton.mp hq]
              refine ⟨e1, ?_, hre1⟩
              rw [round_params_messages]
              exact he1
        | ok r =>
            by_cases hs : r.stop_reason = "tool_use"
            · obtain ⟨new2, hnew2, hchain2, hdec2⟩ :=
                ih r (process_tool_round tm cur msgs)
                  ⟨tr.calls ++ [round_params g (process_tool_round tm cur msgs)
                      system tools],
                   (record_tool_calls cur tr).toolCalls⟩
              refine ⟨round_params g (process_tool_round tm cur msgs) system tools
                  :: new2, ?_, ?_, ?_⟩
              · rw [rounds_loop_succ_continue g client tm tools system n cur msgs tr r
                  h hc hs]
                rw [hnew2]
                simp
              · refine ⟨?_, ?_⟩
                · rw [round_params_messages, he1]
                  exact List.prefix_append msgs e1
                · rw [round_params_messages]
                  exact hchain2
              · intro q hq
                rcases List.mem_cons.mp hq with h1 | h1
                · rw [h1]
                  refine ⟨e1, ?_, hre1⟩
                  rw [round_params_messages]
                  exact he1
                · obtain ⟨ext, hext, hrext⟩ := hdec2 q h1
                  refine ⟨e1 ++ ext, ?_, ?_⟩
                  · rw [hext, he1, List.append_assoc]
                  · intro m hm
                    rcases List.mem_append.mp hm with h2 | h2
                    · exact hre1 m h2
                    · exact hrext m h2
            · refine ⟨[round_params g (process_tool_round tm cur msgs) system tools],
                ?_, ?_, ?_⟩
              · rw [rounds_loop_succ_stop g client tm tools system n cur msgs tr r
                  h hc hs]
              · refine ⟨?_, trivial⟩
                rw [round_params_messages, he1]
                exact List.prefix_append msgs e1
              · intro q hq
                rw [List.mem_singleton.mp hq]
                refine ⟨e1, ?_, hre1⟩
                rw [round_params_messages]
                exact he1

theorem round_message_ne_user_query (m : Message) (q : String)
    (h : round_message m) : m ≠ ⟨"user", MsgContent.text q⟩ := by
  rcases h with ⟨bs, rfl⟩ | ⟨rs, rfl⟩ <;> simp

/-- Structural form of the transcript invariant: the call log of one run is
prefix-chained from the single user message carrying the query, and every
call's transcript is that user message followed by round messages only. -/
theorem generate_calls_chain (g : AIGenerator) (client : ClientFun)
    (query : String) (hist : Option String) (tools : Option (List ToolSchema))
    (tm : Option ToolManager) (max_rounds : Nat) :
    chainFrom [⟨"user", MsgContent.text query⟩]
      (generate_response_rounds g client query hist tools tm max_rounds).2.calls ∧
    ∀ p ∈ (generate_response_rounds g client query hist tools tm
        max_rounds).2.calls,
      ∃ ext, p.messages = ⟨"user", MsgContent.text query⟩ :: ext ∧
        ∀ m ∈ ext, round_message m := by
  have hp0m := round_params_messages g [⟨"user", MsgContent.text query⟩]
    (build_system_content hist) tools
  have hsingle1 : chainFrom [⟨"user", MsgContent.text query⟩]
      ([] ++ [round_params g [⟨"user", MsgContent.text query⟩]
        (build_system_content hist) tools]) := by
    refine ⟨?_, trivial⟩
    rw [hp0m]
  have hsingle2 : ∀ p ∈ ([] ++ [round_params g [⟨"user", MsgContent.text query⟩]
      (build_system_content hist) tools] : List ApiParams),
      ∃ ext, p.messages = ⟨"user", MsgContent.text query⟩ :: ext ∧
        ∀ m ∈ ext, round_message m := by
    intro p hp
    simp only [List.nil_append, List.mem_singleton] at hp
    rw [hp, hp0m]
    exact ⟨[], rfl, fun m hm => absurd hm (List.not_mem_nil m)⟩
  unfold generate_response_rounds
  simp only [callModel, List.length_nil]
  cases hc : client 0 with
  | error e => exact ⟨hsingle1, hsingle2⟩
  | ok resp =>
      dsimp only
      cases tm with
      | none =>
          cases hh : resp.content.head? with
          | none => exact ⟨hsingle1, hsingle2⟩
          | some b => exact ⟨hsingle1, hsingle2⟩
      | some tmm =>
          dsimp only
          by_cases hs : resp.stop_reason = "tool_use"
          · rw [if_pos hs]
            unfold handle_tool_execution_with_rounds
            obtain ⟨new, hnew, hchain, hdec⟩ := rounds_loop_chain g client tmm tools
              (build_system_content hist) max_rounds resp
              [⟨"user", MsgContent.text query⟩]
              ⟨[] ++ [round_params g [⟨"user", MsgContent.text query⟩]
                  (build_system_content hist) tools], []⟩
            rw [hnew]
            constructor
            · simp only [List.nil_append, List.cons_append, List.nil_append]
              refine ⟨?_, ?_⟩
              · rw [hp0m]
              · rw [hp0m]
                exact hchain
            · intro p hp
              simp only [List.nil_append, List.cons_append, List.nil_append,
                List.mem_cons] at hp
              rcases hp with h1 | h1
              · rw [h1, hp0m]
                exact ⟨[], rfl, fun m hm => absurd hm (List.not_mem_nil m)⟩
              · obtain ⟨ext, hext, hrext⟩ := hdec p h1
                exact ⟨ext, hext, hrext⟩
          · rw [if_neg hs]
            cases hh : resp.content.head? with
            | none => exact ⟨hsingle1, hsingle2⟩
            | some b => exact ⟨hsingle1, hsingle2⟩

/-- C8: throughout one orchestration call, every message sequence passed to
the client begins with exactly one user message carrying the original query
(it is the head, and no later message equals it), and transcripts only grow
by appending: the message list of any earlier call is a list prefix of the
message list of any later call, so no message is ever mutated, replaced or
reordered. -/
theorem transcript_append_only (g : AIGenerator) (client : ClientFun)
    (query : String) (hist : Option String) (tools : Option (List ToolSchema))
    (tm : Option ToolManager) (max_rounds : Nat) :
    (∀ p ∈ (generate_response_rounds g client query hist tools tm
        max_rounds).2.calls,
       p.messages.head? = some ⟨"user", MsgContent.text query⟩ ∧
       p.messages.count (⟨"user", MsgContent.text query⟩ : Message) = 1) ∧
    (∀ (i j : Nat)
       (hi : i < (generate_response_rounds g client query hist tools tm
           max_rounds).2.calls.length)
       (hj : j < (generate_response_rounds g client query hist tools tm
           max_rounds).2.calls.length),
       i ≤ j →
       ((generate_response_rounds g client query hist tools tm
           max_rounds).2.calls.get ⟨i, hi⟩).messages
         <+: ((generate_response_rounds g client query hist tools tm
           max_rounds).2.calls.get ⟨j, hj⟩).messages) := by
  obtain ⟨hchain, hdec⟩ :=
    generate_calls_chain g client query hist tools tm max_rounds
  constructor
  · intro p hp
    obtain ⟨ext, hext, hrext⟩ := hdec p hp
    rw [hext]
    refine ⟨rfl, ?_⟩
    have hz : ext.count (⟨"user", MsgContent.text query⟩ : Message) = 0 := by
      refine List.count_eq_zero.mpr ?_
      intro hmem
      exact round_message_ne_user_query _ query
        (hrext _ hmem) rfl
    simp [List.count_cons, hz]
  · intro i j hi hj hij
    exact chainFrom_get_prefix _ _ hchain i j hi hj hij

/-- Witness for `transcript_append_only`: in a two-tool-round run, the first
call's transcript is a prefix of the forced final call's transcript. -/
theorem transcript_append_only_witness :
    ((generate_response_rounds ⟨"m"⟩
        (fun _ => Except.ok ⟨"tool_use", [⟨"tool_use", "t", "tool1", [], "id1"⟩]⟩)
        "q" none (some ["s1"]) (some ⟨fun _ _ => Except.ok "res"⟩) 2).2.calls.get
        ⟨0, by decide⟩).messages
      <+: ((generate_response_rounds ⟨"m"⟩
        (fun _ => Except.ok ⟨"tool_use", [⟨"tool_use", "t", "tool1", [], "id1"⟩]⟩)
        "q" none (some ["s1"]) (some ⟨fun _ _ => Except.ok "res"⟩) 2).2.calls.get
        ⟨2, by decide⟩).messages :=
  (transcript_append_only ⟨"m"⟩
    (fun _ => Except.ok ⟨"tool_use", [⟨"tool_use", "t", "tool1", [], "id1"⟩]⟩)
    "q" none (some ["s1"]) (some ⟨fun _ _ => Except.ok "res"⟩) 2).2
    0 2 (by decide) (by decide) (by decide)
